import Mathlib

/-!
Verification of the feeds plugin (`irc3/plugins/feeds.py`).

Shallow embedding conventions:
* Python strings are `String`; the watermark comparison `e.updated <= updated`
  is the lexicographic order on strings (Python compares strings by code
  points, matching `String`'s linear order).
* `e.updated_parsed`, `time.time()` and `datetime` values are modelled as
  `Int` timestamps; `max_date = datetime.now() - timedelta(days=2)` becomes
  the parameter `maxDate`.
* The filesystem (feed content files and `.updated` watermark sidecar files)
  is a single key-value store `Store : String → Option String`; a missing key
  is a file whose `open` raises `OSError`.
* `feedparser.parse` never raises (it reports malformed input through its
  `bozo` flag and yields an empty/partial entry list), so the decoder is a
  total function `String → List Entry`; a decode failure for a location is a
  decoder returning `[]` for it.
* `requests.get` is `Http : String → Except Unit String` (network errors are
  `.error`).
* Python's `sorted` on the tuples `(e.updated, (args, e))` compares the
  second components when the first are equal; `irc3.utils.Config` and
  feedparser's entry dicts do not support `<`, so two candidates with equal
  timestamp but unequal payload make `sorted` raise `TypeError`.  `pySorted`
  returns `.error ()` exactly in that case, and otherwise the stable merge
  sort by timestamp (with all-distinct keys, or ties that are fully equal
  pairs, this is the order Python produces).
* Exceptions are `Except`/`Option` errors; functions that mutate the store
  before raising return the store they reached together with the error.
-/

/-- One feed item as produced by the decoder; `filename` is the
`e['filename']` field that `parse` assigns on acceptance (empty on raw
entries). -/
structure Entry where
  updated : String
  updatedParsed : Int
  title : String
  link : String
  filename : String := ""
deriving DecidableEq, Repr, Inhabited

/-- One configured feed (`self.feeds[name]` in `Feeds.__init__`): name, source
URLs (`feeds`), storage filenames, channels, format string, per-feed delay (in
seconds, after the `* 60`), and last fetch time (`time`, initially 0). -/
structure FeedCfg where
  name : String
  feeds : List String
  filenames : List String
  channels : List String
  fmt : String
  delay : Int
  time : Int
deriving DecidableEq, Repr, Inhabited

/-- Python `<` on strings: lexicographic comparison of code-point sequences. -/
def lexLt : List Char → List Char → Bool
  | [], [] => false
  | [], _ :: _ => true
  | _ :: _, [] => false
  | a :: as, b :: bs => a < b || (a == b && lexLt as bs)

/-- Python `<=` on strings: lexicographic comparison of code-point
sequences. -/
def lexLe : List Char → List Char → Bool
  | [], _ => true
  | _ :: _, [] => false
  | a :: as, b :: bs => a < b || (a == b && lexLe as bs)

/-- Python `a < b` on strings. -/
def strLt (a b : String) : Bool := lexLt a.data b.data

/-- Python `a <= b` on strings. -/
def strLe (a b : String) : Bool := lexLe a.data b.data

/-- Python `str.strip()` with no argument: drop leading and trailing
whitespace (the ASCII whitespace cases are what occur in watermark files). -/
def pyStrip (s : String) : String :=
  ⟨((s.data.dropWhile Char.isWhitespace).reverse.dropWhile Char.isWhitespace).reverse⟩

/-- The filesystem as a key-value store: keys are file paths, values file
contents; `none` is a missing file. -/
abbrev Store := String → Option String

def storeWrite (st : Store) (k v : String) : Store :=
  fun k2 => if k2 = k then some v else st k2

/-- A candidate: the tuple `(e.updated, (args, e))` appended by `parse`. -/
abbrev Cand := String × FeedCfg × Entry

/-- A hook: `hook(i, feed, entry)` returning `None` (drop) or a pair. -/
abbrev Hook := Nat → FeedCfg → Entry → Option (FeedCfg × Entry)

/-- The default hook: identity pass-through. -/
def default_hook : Hook := fun _ feed entry => some (feed, entry)

/-- `requests.get`: url to content or a transport error. -/
abbrev Http := String → Except Unit String

/-- Reading the watermark sidecar file:
`open(filename + '.updated').read().strip()` with `except OSError: '0'`. -/
def readUpdated (st : Store) (filename : String) : String :=
  match st (filename ++ ".updated") with
  | none => "0"
  | some s => pyStrip s

/-- The per-entry acceptance test in `parse`: not (`e.updated <= updated`,
already sent) and not (`e.updated_parsed < max_date`, older than 2 days). -/
def keepEntry (maxDate : Int) (updated : String) (e : Entry) : Bool :=
  !(strLe e.updated updated) && !(decide (e.updatedParsed < maxDate))

/-- The entries appended for one file: filter by `keepEntry`, set
`e['filename']`, and pair as `(e.updated, (args, e))`. -/
def acceptEntries (maxDate : Int) (updated : String) (args : FeedCfg)
    (filename : String) (es : List Entry) : List Cand :=
  (es.filter (keepEntry maxDate updated)).map
    (fun e => (e.updated, args, { e with filename := filename }))

/-- Key comparison for candidate tuples: first components (`e.updated`). -/
def keyLE (a b : Cand) : Bool := strLe a.1 b.1

/-- Two candidates at different positions with equal timestamp but unequal
payload: sorting them raises `TypeError` in Python (dicts are unordered). -/
def hasBadTie : List Cand → Bool
  | [] => false
  | x :: xs =>
      xs.any (fun y => decide (x.1 = y.1) && !(decide (x.2 = y.2))) || hasBadTie xs

/-- Insert a candidate into a timestamp-sorted list, before the first element
whose timestamp is not strictly smaller (so before equal timestamps: the
element being inserted comes earlier in the original list). -/
def insertCand (a : Cand) : List Cand → List Cand
  | [] => [a]
  | b :: bs => if strLt b.1 a.1 then b :: insertCand a bs else a :: b :: bs

/-- Stable sort of the candidate tuples by timestamp.  Python's `sorted` is a
stable comparison sort on the whole tuples; when no bad tie exists (keys
pairwise distinct, or tied elements fully equal) its result is exactly the
stable sort by the timestamp key. -/
def pySort : List Cand → List Cand
  | [] => []
  | a :: as => insertCand a (pySort as)

/-- `sorted(entries)` on the candidate tuples: `TypeError` when a bad tie
exists, otherwise the stable sort by timestamp. -/
def pySorted (l : List Cand) : Except Unit (List Cand) :=
  if hasBadTie l then .error () else .ok (pySort l)

/-- The loop body of module-level `parse` over `args['filenames']`, carrying
the accumulated `entries` list (NOT reset between files) and the store.  On a
sort `TypeError` the exception propagates with the store as written so far. -/
def parseFeedGo (decoder : String → List Entry) (maxDate : Int) (args : FeedCfg) :
    List String → List Cand → Store → Store × Except Unit (List Cand)
  | [], entries, st => (st, .ok entries)
  | filename :: rest, entries, st =>
    let updated := readUpdated st filename
    let entries := entries ++ acceptEntries maxDate updated args filename (decoder filename)
    if entries.isEmpty then
      parseFeedGo decoder maxDate args rest entries st
    else
      match pySorted entries with
      | .error e => (st, .error e)
      | .ok sortedEntries =>
          parseFeedGo decoder maxDate args rest sortedEntries
            (storeWrite st (filename ++ ".updated") sortedEntries.getLast!.1)

/-- Module-level `parse(feedparser, args)`. -/
def parseFeed (decoder : String → List Entry) (maxDate : Int) (args : FeedCfg)
    (st : Store) : Store × Except Unit (List Cand) :=
  parseFeedGo decoder maxDate args args.filenames [] st

/-- `Feeds.parse`'s first loop: `entries.extend(parse(self.feedparser, feed))`
over all feeds; an exception from one feed's `parse` propagates. -/
def feedsParseGo (decoder : String → List Entry) (maxDate : Int) :
    List FeedCfg → List Cand → Store → Store × Except Unit (List Cand)
  | [], acc, st => (st, .ok acc)
  | f :: rest, acc, st =>
    match parseFeed decoder maxDate f st with
    | (st2, .ok es) => feedsParseGo decoder maxDate rest (acc ++ es) st2
    | (st2, .error e) => (st2, .error e)

/-- The `messages()` generator body over the enumerated sorted candidates:
apply the hook, drop `None`, else render `feed['fmt'].format(...)` (the
`format` parameter models `str.format`) and yield one pair per channel. -/
def messagesFrom (hook : Hook) (format : String → FeedCfg → Entry → String) :
    List (Nat × Cand) → List (String × String)
  | [] => []
  | (i, (_upd, args, e)) :: rest =>
    match hook i args e with
    | none => messagesFrom hook format rest
    | some (feed, entry) =>
        feed.channels.map (fun c => (c, format feed.fmt feed entry))
          ++ messagesFrom hook format rest

/-- `Feeds.parse`: parse all feeds, then sort the collected candidates,
enumerate, hook, format and fan out; the resulting batch is handed to
`call_many` (`.ok batch`), unless an exception escaped (`.error`). -/
def feedsParseNotify (decoder : String → List Entry) (maxDate : Int) (hook : Hook)
    (format : String → FeedCfg → Entry → String) (feeds : List FeedCfg)
    (st : Store) : Store × Except Unit (List (String × String)) :=
  match feedsParseGo decoder maxDate feeds [] st with
  | (st2, .error e) => (st2, .error e)
  | (st2, .ok entries) =>
    match pySorted entries with
    | .error e => (st2, .error e)
    | .ok sortedEntries => (st2, .ok (messagesFrom hook format sortedEntries.enum))

/-- Module-level `fetch(args)`: over `zip(args['feeds'], args['filenames'])`,
get each URL and write the content file; the bare `except: raise` re-raises,
aborting the remaining URLs (the trailing `pass` is dead code). -/
def fetchFeed (httpGet : Http) : List (String × String) → Store → Store × Except Unit Unit
  | [], st => (st, .ok ())
  | (url, filename) :: rest, st =>
    match httpGet url with
    | .error e => (st, .error e)
    | .ok content => fetchFeed httpGet rest (storeWrite st filename content)

/-- Whether `fetch(args)` raises for a feed with these URLs (independent of
the store: only `requests.get` can fail here). -/
def fetchFails (httpGet : Http) : List String → Bool
  | [] => false
  | url :: rest =>
    match httpGet url with
    | .error _ => true
    | .ok _ => fetchFails httpGet rest

/-- The batch filter in `Feeds.fetch`:
`[f for f in self.feeds.values() if f['time'] < now - f['delay']]`. -/
def dueFeeds (now : Int) (feeds : List FeedCfg) : List FeedCfg :=
  feeds.filter (fun f => decide (f.time < now - f.delay))

/-- Names of the due feeds whose `fetch` succeeded, up to the first failure:
`executor.map(fetch, feeds)` yields results in order and re-raises a task's
exception when iteration reaches it, ending the `feed['time']` update loop. -/
def okPrefixNames (httpGet : Http) : List FeedCfg → List String
  | [] => []
  | f :: rest =>
    if fetchFails httpGet f.feeds then []
    else f.name :: okPrefixNames httpGet rest

/-- `Feeds.fetch` (non-testing path): select due feeds; if none, no-op.
Otherwise the executor runs every task (all content-store writes happen, here
applied in batch order), while the result loop sets `feed['time']` only for
the ok prefix and re-raises the first failure (`some ()`).  `now2` models the
`time.time()` taken when a result is consumed. -/
def feedsFetch (httpGet : Http) (now now2 : Int) (feeds : List FeedCfg)
    (st : Store) : List FeedCfg × Store × Option Unit :=
  let due := dueFeeds now feeds
  if due.isEmpty then (feeds, st, none)
  else
    let st2 := due.foldl (fun s f => (fetchFeed httpGet (f.feeds.zip f.filenames) s).1) st
    let okNames := okPrefixNames httpGet due
    let err : Option Unit := if okNames.length = due.length then none else some ()
    (feeds.map (fun f => if okNames.contains f.name then { f with time := now2 } else f),
     st2, err)

/-- `Feeds.update`: fetch (exceptions logged and swallowed), then parse+notify
(likewise), then reschedule unconditionally (`call_later(self.delay, ...)`),
returned as the final `true`.  The dispatched batch is `.ok msgs` when the
parse phase completed, `.error ()` when its exception was logged. -/
def update (httpGet : Http) (decoder : String → List Entry) (hook : Hook)
    (format : String → FeedCfg → Entry → String) (now now2 maxDate : Int)
    (feeds : List FeedCfg) (st : Store) :
    (List FeedCfg × Store) × Except Unit (List (String × String)) × Bool :=
  let fr := feedsFetch httpGet now now2 feeds st
  let pr := feedsParseNotify decoder maxDate hook format fr.1 fr.2.1
  ((fr.1, pr.1), pr.2, true)

/-- `name.replace('/', '_')`: the pattern is a single character, so this is
the character-wise substitution. -/
def slashToUnderscore (name : String) : String :=
  ⟨name.data.map fun c => if c = '/' then '_' else c⟩

/-- Storage filename for URL index `i` of feed `name`
(`Feeds.__init__`): `os.path.join(directory, name.replace('/', '_'))` then
`'{0}.{1}.feed'.format(filename, i)`. -/
def feedFilename (directory name : String) (i : Nat) : String :=
  directory ++ "/" ++ slashToUnderscore name ++ "." ++ toString i ++ ".feed"

/-! Concrete inputs used by counterexamples and witnesses below. -/

/-- A feed with two URLs, hence two storage locations `f1` and `f2`. -/
def feedAB : FeedCfg :=
  { name := "F", feeds := ["u1", "u2"], filenames := ["f1", "f2"],
    channels := ["#c"], fmt := "fmt", delay := 60, time := 0 }

def e5 : Entry := { updated := "5", updatedParsed := 10, title := "E5", link := "l5" }

def e7 : Entry := { updated := "7", updatedParsed := 10, title := "E7", link := "l7" }

/-- Stored feed content: location `f1` decodes to `[e5]`, `f2` to `[e7]`. -/
def dec2 : String → List Entry := fun fn =>
  if fn = "f1" then [e5] else if fn = "f2" then [e7] else []

/-- Store with a prior watermark `"9"` for location `f2` and nothing else. -/
def st2 : Store := fun k => if k = "f2.updated" then some "9" else none

/-- A formatter that renders an entry as its title. -/
def fmtTitle : String → FeedCfg → Entry → String := fun _ _ e => e.title

/-- Source whose first URL `ux1` fails to fetch. -/
def srcX : FeedCfg :=
  { name := "X", feeds := ["ux1", "ux2"], filenames := ["X.0.feed", "X.1.feed"],
    channels := ["#c"], fmt := "fmt", delay := 60, time := 0 }

/-- A healthy source fetched in the same cycle as `srcX`. -/
def srcY : FeedCfg :=
  { name := "Y", feeds := ["uy"], filenames := ["Y.0.feed"],
    channels := ["#c"], fmt := "fmt", delay := 60, time := 0 }

/-- HTTP client for which only the URL `ux1` errors. -/
def httpX : Http := fun u => if u = "ux1" then .error () else .ok ("content:" ++ u)

def srcA : FeedCfg :=
  { name := "A", feeds := ["ua"], filenames := ["a1"],
    channels := ["#a"], fmt := "fa", delay := 60, time := 0 }

def srcB : FeedCfg :=
  { name := "B", feeds := ["ub"], filenames := ["b1"],
    channels := ["#b"], fmt := "fb", delay := 60, time := 0 }

def eA : Entry := { updated := "20", updatedParsed := 10, title := "EA", link := "la" }

/-- Same update timestamp as `eA`, different content. -/
def eB : Entry := { updated := "20", updatedParsed := 10, title := "EB", link := "lb" }

/-- Content for two feeds with entries of equal timestamp `"20"`. -/
def decC4 : String → List Entry := fun fn =>
  if fn = "a1" then [eA] else if fn = "b1" then [eB] else []

/-- A feed with three storage locations; the middle one, `gf`, will fail to
decode. -/
def srcM : FeedCfg :=
  { name := "M", feeds := ["um1", "um2", "um3"], filenames := ["g1", "gf", "g2"],
    channels := ["#m"], fmt := "fm", delay := 60, time := 0 }

def eG4 : Entry := { updated := "4", updatedParsed := 10, title := "G4", link := "q4" }

def eG6 : Entry := { updated := "6", updatedParsed := 10, title := "G6", link := "q6" }

/-- Content where location `gf` of feed `srcM` fails to decode (no entries)
while the feed's other locations `g1`, `g2` and feed B's location `b1` still
decode. -/
def decM : String → List Entry := fun fn =>
  if fn = "g1" then [eG4] else if fn = "g2" then [eG6]
  else if fn = "b1" then [eB] else []

def eT10 : Entry := { updated := "10", updatedParsed := 10, title := "T10", link := "k10" }

def eT30 : Entry := { updated := "30", updatedParsed := 10, title := "T30", link := "k30" }

def eT20 : Entry := { updated := "20", updatedParsed := 10, title := "T20", link := "k20" }

/-- Feed A's location yields timestamps "10" and "30", feed B's "20". -/
def decOrd : String → List Entry := fun fn =>
  if fn = "a1" then [eT10, eT30] else if fn = "b1" then [eT20] else []

/-- The candidates collected by the parse loop on `[srcA, srcB]` with
`decOrd` and an empty store. -/
def ordEntries : List Cand :=
  [(eT10.updated, srcA, { eT10 with filename := "a1" }),
   (eT30.updated, srcA, { eT30 with filename := "a1" }),
   (eT20.updated, srcB, { eT20 with filename := "b1" })]

def eW3 : Entry := { updated := "3", updatedParsed := 10, title := "E3", link := "k3" }

def eW7 : Entry := { updated := "7", updatedParsed := 10, title := "E7b", link := "k7b" }

/-- Location `a1` decodes to an already-announced entry (ts "3") and a fresh
one (ts "7"). -/
def decW : String → List Entry := fun fn => if fn = "a1" then [eW3, eW7] else []

/-- Store with prior watermark "5" for location `a1`. -/
def stW : Store := fun k => if k = "a1.updated" then some "5" else none

example : feedFilename "d" "a/b" 0 = "d/a_b.0.feed" := by decide
example : keepEntry 0 "5" { updated := "7", updatedParsed := 3, title := "", link := "" } = true := by decide
example : keepEntry 0 "7" { updated := "7", updatedParsed := 3, title := "", link := "" } = false := by decide

/-! Order lemmas for the lexicographic string comparison. -/

theorem lexLt_irrefl : ∀ l : List Char, lexLt l l = false
  | [] => rfl
  | a :: as => by simp [lexLt, lexLt_irrefl as]

theorem lexLt_trans : ∀ a b c : List Char,
    lexLt a b = true → lexLt b c = true → lexLt a c = true := by
  intro a
  induction a with
  | nil =>
    intro b c h1 h2
    cases b <;> cases c <;> simp_all [lexLt]
  | cons x xs ih =>
    intro b c h1 h2
    cases b with
    | nil => simp [lexLt] at h1
    | cons y ys =>
      cases c with
      | nil => simp [lexLt] at h2
      | cons z zs =>
        simp only [lexLt, Bool.or_eq_true, Bool.and_eq_true, decide_eq_true_eq,
          beq_iff_eq] at h1 h2 ⊢
        rcases h1 with h1 | ⟨rfl, h1⟩
        · rcases h2 with h2 | ⟨rfl, h2⟩
          · exact Or.inl (lt_trans h1 h2)
          · exact Or.inl h1
        · rcases h2 with h2 | ⟨rfl, h2⟩
          · exact Or.inl h2
          · exact Or.inr ⟨rfl, ih ys zs h1 h2⟩

theorem lexLt_trichotomy : ∀ a b : List Char,
    lexLt a b = true ∨ a = b ∨ lexLt b a = true := by
  intro a
  induction a with
  | nil =>
    intro b
    cases b with
    | nil => right; left; rfl
    | cons y ys => left; rfl
  | cons x xs ih =>
    intro b
    cases b with
    | nil => right; right; rfl
    | cons y ys =>
      rcases lt_trichotomy x y with h | rfl | h
      · left
        simp [lexLt, h]
      · rcases ih ys with h2 | h2 | h2
        · left
          simp [lexLt, h2]
        · right; left
          rw [h2]
        · right; right
          simp [lexLt, h2]
      · right; right
        simp [lexLt, h]

theorem lexLe_eq_not_lexLt : ∀ a b : List Char, lexLe a b = !(lexLt b a) := by
  intro a
  induction a with
  | nil => intro b; cases b <;> simp [lexLe, lexLt]
  | cons x xs ih =>
    intro b
    cases b with
    | nil => simp [lexLe, lexLt]
    | cons y ys =>
      simp only [lexLe, lexLt]
      rcases lt_trichotomy x y with h | rfl | h
      · have h1 : ¬ y < x := asymm h
        have h2 : y ≠ x := (ne_of_lt h).symm
        simp [h, h1, h2]
      · simp [ih ys]
      · have h1 : ¬ x < y := asymm h
        have h2 : x ≠ y := (ne_of_lt h).symm
        simp [h, h1, h2]

theorem strLe_eq_not_strLt (a b : String) : strLe a b = !(strLt b a) :=
  lexLe_eq_not_lexLt a.data b.data

theorem strLt_asymm {a b : String} (h : strLt a b = true) : strLt b a = false := by
  cases hc : strLt b a with
  | false => rfl
  | true =>
    have := lexLt_trans _ _ _ h hc
    rw [lexLt_irrefl] at this
    exact absurd this (by simp)

theorem strLt_trichotomy (a b : String) :
    strLt a b = true ∨ a = b ∨ strLt b a = true := by
  rcases lexLt_trichotomy a.data b.data with h | h | h
  · exact Or.inl h
  · exact Or.inr (Or.inl (congrArg String.mk h))
  · exact Or.inr (Or.inr h)

theorem strLe_of_strLt {a b : String} (h : strLt a b = true) : strLe a b = true := by
  rw [strLe_eq_not_strLt, strLt_asymm h]; rfl

theorem strLe_refl (a : String) : strLe a a = true := by
  rw [strLe_eq_not_strLt]
  unfold strLt
  rw [lexLt_irrefl]
  rfl

theorem strLe_total (a b : String) : strLe a b = true ∨ strLe b a = true := by
  rw [strLe_eq_not_strLt, strLe_eq_not_strLt]
  cases h : strLt b a with
  | false => exact Or.inl rfl
  | true => exact Or.inr (by rw [strLt_asymm h]; rfl)

theorem not_strLe_iff {a b : String} : strLe a b = false ↔ strLt b a = true := by
  rw [strLe_eq_not_strLt]
  cases strLt b a <;> simp

theorem strLe_trans {a b c : String} (h1 : strLe a b = true) (h2 : strLe b c = true) :
    strLe a c = true := by
  rw [strLe_eq_not_strLt, Bool.not_eq_true'] at h1 h2 ⊢
  cases hc : strLt c a with
  | false => rfl
  | true =>
    rcases strLt_trichotomy b a with h | h | h
    · rw [h] at h1
      cases h1
    · rw [h] at h2
      rw [hc] at h2
      cases h2
    · have hcb : strLt c b = true := lexLt_trans _ _ _ hc h
      rw [hcb] at h2
      cases h2

theorem strLe_strLt_trans {a b c : String} (h1 : strLe a b = true)
    (h2 : strLt b c = true) : strLt a c = true := by
  rw [strLe_eq_not_strLt, Bool.not_eq_true'] at h1
  rcases strLt_trichotomy a c with h | h | h
  · exact h
  · rw [← h] at h2
    rw [h2] at h1
    cases h1
  · have hba : strLt b a = true := lexLt_trans _ _ _ h2 h
    rw [hba] at h1
    cases h1

/-! Lemmas about the stable sort and list helpers. -/

theorem getLastBang_mem {α : Type} [Inhabited α] :
    ∀ (l : List α), l ≠ [] → l.getLast! ∈ l := by
  intro l
  induction l with
  | nil => intro h; exact absurd rfl h
  | cons a as ih =>
    intro _
    cases as with
    | nil =>
      rw [List.getLast!_cons]
      exact List.mem_singleton.mpr rfl
    | cons b bs =>
      rw [List.getLast!_cons, List.getLastD_cons]
      have hm := ih (by simp)
      rw [List.getLast!_cons] at hm
      exact List.mem_cons_of_mem a hm

theorem insertCand_perm (a : Cand) : ∀ l : List Cand, List.Perm (insertCand a l) (a :: l)
  | [] => List.Perm.refl _
  | b :: bs => by
    unfold insertCand
    split
    · exact ((insertCand_perm a bs).cons b).trans (List.Perm.swap a b bs)
    · exact List.Perm.refl _

theorem pySort_perm : ∀ l : List Cand, List.Perm (pySort l) l
  | [] => List.Perm.refl _
  | a :: as => (insertCand_perm a (pySort as)).trans ((pySort_perm as).cons a)

theorem insertCand_sorted (a : Cand) : ∀ {l : List Cand},
    l.Pairwise (fun x y => strLe x.1 y.1 = true) →
    (insertCand a l).Pairwise (fun x y => strLe x.1 y.1 = true) := by
  intro l
  induction l with
  | nil => intro _; exact List.pairwise_singleton _ _
  | cons b bs ih =>
    intro h
    rw [List.pairwise_cons] at h
    obtain ⟨hb, hbs⟩ := h
    unfold insertCand
    split
    · rename_i hlt
      rw [List.pairwise_cons]
      refine ⟨?_, ih hbs⟩
      intro x hx
      rw [(insertCand_perm a bs).mem_iff, List.mem_cons] at hx
      rcases hx with rfl | hx
      · exact strLe_of_strLt hlt
      · exact hb x hx
    · rename_i hnlt
      have hf : strLt b.1 a.1 = false := by
        revert hnlt
        cases strLt b.1 a.1 <;> simp
      have hab : strLe a.1 b.1 = true := by
        rw [strLe_eq_not_strLt, hf]
        rfl
      rw [List.pairwise_cons]
      constructor
      · intro x hx
        rw [List.mem_cons] at hx
        rcases hx with rfl | hx
        · exact hab
        · exact strLe_trans hab (hb x hx)
      · rw [List.pairwise_cons]
        exact ⟨hb, hbs⟩

theorem pySort_sorted : ∀ l : List Cand,
    (pySort l).Pairwise (fun x y => strLe x.1 y.1 = true)
  | [] => List.Pairwise.nil
  | a :: as => insertCand_sorted a (pySort_sorted as)

theorem mem_acceptEntries {maxDate : Int} {w : String} {args : FeedCfg}
    {fn : String} {es : List Entry} {c : Cand}
    (hc : c ∈ acceptEntries maxDate w args fn es) :
    ∃ e ∈ es, keepEntry maxDate w e = true ∧ c.1 = e.updated := by
  unfold acceptEntries at hc
  rw [List.mem_map] at hc
  obtain ⟨e, he, rfl⟩ := hc
  rw [List.mem_filter] at he
  exact ⟨e, he.1, he.2, rfl⟩

theorem messagesFrom_none_hook (format : String → FeedCfg → Entry → String) :
    ∀ l : List (Nat × Cand), messagesFrom (fun _ _ _ => none) format l = []
  | [] => rfl
  | (_, (_, _, _)) :: rest => messagesFrom_none_hook format rest

/-- Unfolding of module-level `parse` for a feed with a single storage
location. -/
theorem parseFeed_single (decoder : String → List Entry) (maxDate : Int)
    (args : FeedCfg) (st : Store) (f : String) (hf : args.filenames = [f]) :
    parseFeed decoder maxDate args st =
      (if (acceptEntries maxDate (readUpdated st f) args f (decoder f)).isEmpty
       then (st, .ok (acceptEntries maxDate (readUpdated st f) args f (decoder f)))
       else
         match pySorted (acceptEntries maxDate (readUpdated st f) args f (decoder f)) with
         | .error e => (st, .error e)
         | .ok s => (storeWrite st (f ++ ".updated") s.getLast!.1, .ok s)) := by
  unfold parseFeed
  rw [hf]
  simp only [parseFeedGo, List.nil_append]

/-! Claim theorems. -/

/-- C1: refuted on the code.  With feed `feedAB` (locations `f1`, `f2`),
prior watermark `"9"` for `f2`, content where `f1` decodes to an entry with
timestamp `"5"` and `f2` to an entry with timestamp `"7"` (below `f2`'s
watermark), the parse phase accepts no entry for `f2` — yet it writes `f2`'s
watermark anyway, with `f1`'s timestamp `"5"`, regressing it from `"9"`: the
cumulative `entries` list is never reset between locations, so `if entries:`
is true for `f2` and `entries[-1][0]` comes from `f1`. -/
theorem c1_watermark_regression_at_failing_input :
    readUpdated st2 "f2" = "9" ∧
    acceptEntries 0 (readUpdated st2 "f2") feedAB "f2" (dec2 "f2") = [] ∧
    readUpdated (parseFeed dec2 0 feedAB st2).1 "f2" = "5" ∧
    strLt (readUpdated (parseFeed dec2 0 feedAB st2).1 "f2")
      (readUpdated st2 "f2") = true :=
  ⟨rfl, rfl, rfl, rfl⟩

/-- C2 counterexample: entry `e7` has timestamp `"7"`, at most the current
watermark `"9"` of its location `f2`, and is not emitted in the first cycle;
but the first cycle regresses `f2`'s watermark to `"5"`, so the second cycle
accepts and dispatches `e7` — an entry with timestamp ≤ the current
watermark IS re-emitted in a subsequent cycle. -/
theorem c2_reemission_counterexample :
    strLe e7.updated (readUpdated st2 "f2") = true ∧
    (parseFeed dec2 0 feedAB st2).2
      = .ok [(e5.updated, feedAB, { e5 with filename := "f1" })] ∧
    (feedsParseNotify dec2 0 default_hook fmtTitle [feedAB]
        (parseFeed dec2 0 feedAB st2).1).2
      = .ok [("#c", "E7")] :=
  ⟨rfl, rfl, rfl⟩

/-- C3: refuted on the code (`except: raise` with a dead `pass` below it).
Both sources are due at `now = 100`; source X's first URL fails, so X's
remaining URL is aborted (nothing of X is stored) and Y is still fetched
(its content is stored) — but the exception is re-raised by the result loop
of `executor.map`, so NEITHER X's nor Y's `feed['time']` advances and the
fetch phase raises. -/
theorem c3_fetch_error_skips_lastFetchTime_updates :
    dueFeeds 100 [srcX, srcY] = [srcX, srcY] ∧
    (feedsFetch httpX 100 101 [srcX, srcY] (fun _ => none)).2.1 "X.0.feed" = none ∧
    (feedsFetch httpX 100 101 [srcX, srcY] (fun _ => none)).2.1 "X.1.feed" = none ∧
    (feedsFetch httpX 100 101 [srcX, srcY] (fun _ => none)).2.1 "Y.0.feed"
      = some "content:uy" ∧
    (feedsFetch httpX 100 101 [srcX, srcY] (fun _ => none)).1 = [srcX, srcY] ∧
    (feedsFetch httpX 100 101 [srcX, srcY] (fun _ => none)).2.2 = some () :=
  ⟨rfl, rfl, rfl, rfl, rfl, rfl⟩

/-- C4 counterexample: feeds A and B each contribute one candidate and the
two candidates carry the same timestamp `"20"` with different payloads;
`sorted(entries)` then compares the `(args, e)` dict payloads of the tied
tuples and raises `TypeError`, so the notify phase aborts with an exception
instead of emitting the tied candidates in discovery order. -/
theorem c4_equal_timestamps_abort_notify :
    (feedsParseGo decC4 0 [srcA, srcB] [] (fun _ => none)).2
      = .ok [(eA.updated, srcA, { eA with filename := "a1" }),
             (eB.updated, srcB, { eB with filename := "b1" })] ∧
    hasBadTie [(eA.updated, srcA, { eA with filename := "a1" }),
               (eB.updated, srcB, { eB with filename := "b1" })] = true ∧
    (feedsParseNotify decC4 0 default_hook fmtTitle [srcA, srcB]
        (fun _ => none)).2 = .error () :=
  ⟨rfl, rfl, rfl⟩

/-- C6 counterexample: `srcX` has lastFetchTime T = 0 and delay D = 60; a
cycle triggered at exactly `now = T + D = 60` EXCLUDES it from the fetch
batch (the filter is the strict `f['time'] < now - f['delay']`), though the
claim says it is included at or after T + D; at 61 it is included. -/
theorem c6_excluded_at_exact_boundary :
    srcX.time + srcX.delay = 60 ∧
    dueFeeds 60 [srcX] = [] ∧
    dueFeeds 61 [srcX] = [srcX] :=
  ⟨rfl, rfl, rfl⟩

/-- C6 amended: a FeedSource with lastFetchTime T and fetch delay D is in
the fetch batch of a cycle triggered at `now` iff `now` is strictly after
T + D; at or before T + D it is excluded. -/
theorem c6_due_iff_strictly_after_interval (now : Int) (feeds : List FeedCfg)
    (f : FeedCfg) :
    f ∈ dueFeeds now feeds ↔ f ∈ feeds ∧ f.time + f.delay < now := by
  unfold dueFeeds
  rw [List.mem_filter]
  simp only [decide_eq_true_eq]
  constructor
  · rintro ⟨h1, h2⟩
    exact ⟨h1, by omega⟩
  · rintro ⟨h1, h2⟩
    exact ⟨h1, by omega⟩

/-- C9: reading the watermark never fails: a missing (or unreadable, i.e.
`OSError`-raising) sidecar file yields the sentinel `"0"`, and acceptance
against the sentinel is exactly "timestamp strictly above `"0"` and within
the 2-day horizon". -/
theorem c9_missing_watermark_reads_epoch_zero
    (st : Store) (f : String) (maxDate : Int) (e : Entry)
    (h : st (f ++ ".updated") = none) :
    readUpdated st f = "0" ∧
    (keepEntry maxDate (readUpdated st f) e = true ↔
      strLt "0" e.updated = true ∧ maxDate ≤ e.updatedParsed) := by
  have hr : readUpdated st f = "0" := by
    unfold readUpdated
    rw [h]
  refine ⟨hr, ?_⟩
  rw [hr]
  unfold keepEntry
  rw [Bool.and_eq_true, Bool.not_eq_true', Bool.not_eq_true', not_strLe_iff,
    decide_eq_false_iff_not, Int.not_lt]

theorem c9_missing_watermark_reads_epoch_zero_witness :
    readUpdated (fun _ => none) "f" = "0" ∧
    (keepEntry 0 (readUpdated (fun _ => none) "f") e5 = true ↔
      strLt "0" e5.updated = true ∧ (0 : Int) ≤ e5.updatedParsed) :=
  c9_missing_watermark_reads_epoch_zero (fun _ => none) "f" 0 e5 rfl

/-- C10: storage locations come from the feed name with every '/' replaced
by '_' plus an index suffix, so any two feed names that sanitise to the same
string — e.g. names differing only in '/' versus '_' — share their storage
files and their watermark sidecar files. -/
theorem c10_slash_underscore_names_share_files
    (dir n1 n2 : String) (i : Nat)
    (h : slashToUnderscore n1 = slashToUnderscore n2) :
    feedFilename dir n1 i = feedFilename dir n2 i ∧
    feedFilename dir n1 i ++ ".updated" = feedFilename dir n2 i ++ ".updated" := by
  unfold feedFilename
  rw [h]
  exact ⟨rfl, rfl⟩

theorem c10_slash_underscore_names_share_files_witness :
    ("a/b" : String) ≠ "a_b" ∧
    (feedFilename "d" "a/b" 0 = feedFilename "d" "a_b" 0 ∧
     feedFilename "d" "a/b" 0 ++ ".updated"
       = feedFilename "d" "a_b" 0 ++ ".updated") :=
  ⟨by decide, c10_slash_underscore_names_share_files "d" "a/b" "a_b" 0 (by decide)⟩

/-- C7: a hook returning none for every candidate yields zero dispatched
(channel, message) pairs (unless the cycle already aborted with the sort
`TypeError`, in which case nothing is dispatched either), and the store —
hence every persisted watermark — is identical to the store under the
default identity hook: the parse/watermark logic never consults the hook. -/
theorem c7_hook_suppression_leaves_watermarks_unchanged
    (decoder : String → List Entry) (maxDate : Int)
    (format : String → FeedCfg → Entry → String) (feeds : List FeedCfg)
    (st : Store) :
    (feedsParseNotify decoder maxDate (fun _ _ _ => none) format feeds st).1
      = (feedsParseNotify decoder maxDate default_hook format feeds st).1 ∧
    ((feedsParseNotify decoder maxDate (fun _ _ _ => none) format feeds st).2
        = .ok []
     ∨ (feedsParseNotify decoder maxDate (fun _ _ _ => none) format feeds st).2
        = .error ()) := by
  unfold feedsParseNotify
  cases hgo : feedsParseGo decoder maxDate feeds [] st with
  | mk st2 r =>
    cases r with
    | error e => simp
    | ok entries =>
      cases hs : pySorted entries with
      | error e => simp [hs]
      | ok l => simp [hs, messagesFrom_none_hook]

/-- C8: even when the fetch phase raises (its error component is `some ()`),
`update` still runs the parse+notify phase on the post-fetch state — the
dispatched batch is exactly what parse+notify produces there — and the next
cycle is still scheduled (the flag is true). -/
theorem c8_fetch_failure_does_not_block_parse_or_reschedule
    (httpGet : Http) (decoder : String → List Entry) (hook : Hook)
    (format : String → FeedCfg → Entry → String) (now now2 maxDate : Int)
    (feeds : List FeedCfg) (st : Store)
    (_hfail : (feedsFetch httpGet now now2 feeds st).2.2 = some ()) :
    (update httpGet decoder hook format now now2 maxDate feeds st).2.2 = true ∧
    (update httpGet decoder hook format now now2 maxDate feeds st).2.1
      = (feedsParseNotify decoder maxDate hook format
          (feedsFetch httpGet now now2 feeds st).1
          (feedsFetch httpGet now now2 feeds st).2.1).2 :=
  ⟨rfl, rfl⟩

theorem c8_fetch_failure_does_not_block_parse_or_reschedule_witness :
    (update httpX dec2 default_hook fmtTitle 100 101 0 [srcX, srcY]
        (fun _ => none)).2.2 = true ∧
    (update httpX dec2 default_hook fmtTitle 100 101 0 [srcX, srcY]
        (fun _ => none)).2.1
      = (feedsParseNotify dec2 0 default_hook fmtTitle
          (feedsFetch httpX 100 101 [srcX, srcY] (fun _ => none)).1
          (feedsFetch httpX 100 101 [srcX, srcY] (fun _ => none)).2.1).2 :=
  c8_fetch_failure_does_not_block_parse_or_reschedule httpX dec2 default_hook
    fmtTitle 100 101 0 [srcX, srcY] (fun _ => none) rfl

/-- C2 amended: per cycle, a decoded entry is accepted for a location exactly
when its timestamp is strictly greater than the location's stored watermark
and it is not older than the 2-day horizon.  For a feed with a single
storage location whose decoded timestamps carry no surrounding whitespace,
the location's watermark never decreases across a parse, so an entry with
timestamp at or below the current watermark is not accepted in this cycle
nor in the next one.  (For multi-location feeds the watermark can regress
and such an entry can be re-emitted later: see the counterexample.) -/
theorem c2_acceptance_iff_and_single_location_no_reemit
    (decoder : String → List Entry) (maxDate maxDate2 : Int) (args : FeedCfg)
    (st : Store) (f : String) (e : Entry)
    (hf : args.filenames = [f])
    (hclean : ∀ e2 ∈ decoder f, pyStrip e2.updated = e2.updated) :
    (keepEntry maxDate (readUpdated st f) e = true ↔
      strLt (readUpdated st f) e.updated = true ∧ maxDate ≤ e.updatedParsed) ∧
    strLe (readUpdated st f) (readUpdated (parseFeed decoder maxDate args st).1 f)
      = true ∧
    (strLe e.updated (readUpdated st f) = true →
      keepEntry maxDate2 (readUpdated (parseFeed decoder maxDate args st).1 f) e
        = false) := by
  have hkeep : ∀ (m : Int) (w : String) (x : Entry), keepEntry m w x = true ↔
      strLt w x.updated = true ∧ m ≤ x.updatedParsed := by
    intro m w x
    unfold keepEntry
    rw [Bool.and_eq_true, Bool.not_eq_true', Bool.not_eq_true', not_strLe_iff,
      decide_eq_false_iff_not, Int.not_lt]
  refine ⟨hkeep maxDate (readUpdated st f) e, ?_⟩
  have hmain : strLe (readUpdated st f)
      (readUpdated (parseFeed decoder maxDate args st).1 f) = true := by
    rw [parseFeed_single decoder maxDate args st f hf]
    cases hacc : acceptEntries maxDate (readUpdated st f) args f (decoder f) with
    | nil => exact strLe_refl _
    | cons c cs =>
      cases hbad : pySorted (c :: cs) with
      | error err => exact strLe_refl _
      | ok s =>
        have hs2 : s = pySort (c :: cs) := by
          unfold pySorted at hbad
          by_cases htie : hasBadTie (c :: cs) = true
          · rw [if_pos htie] at hbad
            cases hbad
          · rw [if_neg htie] at hbad
            injection hbad with h
            exact h.symm
        have hne : pySort (c :: cs) ≠ [] := by
          intro hnil
          have hlen := (pySort_perm (c :: cs)).length_eq
          rw [hnil] at hlen
          simp at hlen
        have hmem : (pySort (c :: cs)).getLast! ∈ pySort (c :: cs) :=
          getLastBang_mem _ hne
        have hmem2 : (pySort (c :: cs)).getLast! ∈ c :: cs :=
          ((pySort_perm (c :: cs)).mem_iff).mp hmem
        rw [← hacc] at hmem2
        obtain ⟨e2, he2, hk2, hv⟩ := mem_acceptEntries hmem2
        have hstrict : strLt (readUpdated st f) e2.updated = true :=
          ((hkeep maxDate (readUpdated st f) e2).mp hk2).1
        rw [hacc] at hv
        simp only [readUpdated, storeWrite, List.isEmpty_cons, Bool.false_eq_true,
          if_false, if_pos, hs2]
        rw [hv, hclean e2 he2]
        exact strLe_of_strLt hstrict
  refine ⟨hmain, ?_⟩
  intro hle
  have hts : strLe e.updated (readUpdated (parseFeed decoder maxDate args st).1 f)
      = true := strLe_trans hle hmain
  unfold keepEntry
  rw [hts]
  rfl

theorem c2_acceptance_iff_and_single_location_no_reemit_witness :
    (keepEntry 0 (readUpdated stW "a1") eW3 = true ↔
      strLt (readUpdated stW "a1") eW3.updated = true ∧
        (0 : Int) ≤ eW3.updatedParsed) ∧
    strLe (readUpdated stW "a1") (readUpdated (parseFeed decW 0 srcA stW).1 "a1")
      = true ∧
    keepEntry 1 (readUpdated (parseFeed decW 0 srcA stW).1 "a1") eW3 = false :=
  ⟨(c2_acceptance_iff_and_single_location_no_reemit decW 0 1 srcA stW "a1" eW3
      rfl (by decide)).1,
   (c2_acceptance_iff_and_single_location_no_reemit decW 0 1 srcA stW "a1" eW3
      rfl (by decide)).2.1,
   (c2_acceptance_iff_and_single_location_no_reemit decW 0 1 srcA stW "a1" eW3
      rfl (by decide)).2.2 (by decide)⟩

/-- C4 amended: when the collected candidates contain no two with equal
timestamp and different payload, the notify phase succeeds and hands the
hook the enumeration (index = position) of the stable sort of the
candidates: a permutation of all candidates, ordered by timestamp ascending
(remaining ties are fully identical candidates, so discovery order among
them is immaterial); the emitted (channel, message) pairs follow that
order.  Ties with different payloads abort the phase with a `TypeError`
instead: see the counterexample. -/
theorem c4_notify_order_globally_sorted
    (decoder : String → List Entry) (maxDate : Int) (hook : Hook)
    (format : String → FeedCfg → Entry → String) (feeds : List FeedCfg)
    (st st2 : Store) (entries : List Cand)
    (hgo : feedsParseGo decoder maxDate feeds [] st = (st2, .ok entries))
    (htie : hasBadTie entries = false) :
    feedsParseNotify decoder maxDate hook format feeds st
      = (st2, .ok (messagesFrom hook format (pySort entries).enum)) ∧
    List.Perm (pySort entries) entries ∧
    (pySort entries).Pairwise (fun a b => strLe a.1 b.1 = true) := by
  refine ⟨?_, pySort_perm entries, pySort_sorted entries⟩
  unfold feedsParseNotify
  rw [hgo]
  simp [pySorted, htie]

theorem c4_notify_order_globally_sorted_witness :
    feedsParseNotify decOrd 0 default_hook fmtTitle [srcA, srcB] (fun _ => none)
      = ((feedsParseGo decOrd 0 [srcA, srcB] [] (fun _ => none)).1,
         .ok (messagesFrom default_hook fmtTitle (pySort ordEntries).enum)) ∧
    List.Perm (pySort ordEntries) ordEntries ∧
    (pySort ordEntries).Pairwise (fun a b => strLe a.1 b.1 = true) :=
  c4_notify_order_globally_sorted decOrd 0 default_hook fmtTitle [srcA, srcB]
    (fun _ => none) ((feedsParseGo decOrd 0 [srcA, srcB] [] (fun _ => none)).1)
    ordEntries rfl rfl

/-! Infrastructure for the general decode-failure containment theorem:
sidecar keys of distinct locations are distinct, bad ties are a pairwise
(permutation-invariant) property, the parse loop composes over list append,
runs from stores agreeing outside one key agree outside that key, and the
accumulator of a run started from `[]` is always sorted and tie-free. -/

theorem append_updated_ne {g floc : String} (h : g ≠ floc) :
    g ++ ".updated" ≠ floc ++ ".updated" := by
  intro heq
  apply h
  have hdata : g.data ++ ".updated".data = floc.data ++ ".updated".data := by
    have h2 := congrArg String.data heq
    simpa [String.data_append] using h2
  exact congrArg String.mk (List.append_cancel_right hdata)

theorem hasBadTie_eq_false_iff : ∀ l : List Cand,
    hasBadTie l = false ↔ l.Pairwise (fun x y => x.1 = y.1 → x.2 = y.2)
  | [] => by simp [hasBadTie]
  | x :: xs => by
    rw [List.pairwise_cons, ← hasBadTie_eq_false_iff xs]
    have hstep : hasBadTie (x :: xs)
        = ((xs.any fun y => decide (x.1 = y.1) && !(decide (x.2 = y.2)))
            || hasBadTie xs) := rfl
    rw [hstep, Bool.or_eq_false_iff, List.any_eq_false]
    constructor
    · rintro ⟨h1, h2⟩
      refine ⟨?_, h2⟩
      intro y hy hxy
      have h3 := h1 y hy
      simp [hxy] at h3
      exact h3
    · rintro ⟨h1, h2⟩
      refine ⟨?_, h2⟩
      intro y hy
      simp only [Bool.and_eq_true, decide_eq_true_eq, Bool.not_eq_true',
        decide_eq_false_iff_not, not_and]
      intro hxy
      intro hne
      exact hne (h1 y hy hxy)

theorem hasBadTie_eq_false_of_perm {l1 l2 : List Cand} (hp : List.Perm l1 l2)
    (h : hasBadTie l1 = false) : hasBadTie l2 = false := by
  rw [hasBadTie_eq_false_iff] at h ⊢
  exact (List.Perm.pairwise_iff (fun hxy h2 => (hxy h2.symm).symm) hp).mp h

theorem insertCand_of_le (a : Cand) (l : List Cand)
    (h : ∀ b ∈ l, strLe a.1 b.1 = true) : insertCand a l = a :: l := by
  cases l with
  | nil => rfl
  | cons b bs =>
    have hab := h b (List.mem_cons_self b bs)
    have hf : strLt b.1 a.1 = false := by
      rw [strLe_eq_not_strLt] at hab
      cases hst : strLt b.1 a.1 with
      | false => rfl
      | true =>
        rw [hst] at hab
        cases hab
    unfold insertCand
    rw [hf]
    simp

theorem pySort_of_sorted : ∀ l : List Cand,
    l.Pairwise (fun x y => strLe x.1 y.1 = true) → pySort l = l
  | [] => fun _ => rfl
  | a :: as => fun h => by
    rw [List.pairwise_cons] at h
    unfold pySort
    rw [pySort_of_sorted as h.2, insertCand_of_le a as h.1]

theorem parseFeedGo_append (d : String → List Entry) (m : Int) (args : FeedCfg) :
    ∀ (xs ys : List String) (acc : List Cand) (st : Store),
    parseFeedGo d m args (xs ++ ys) acc st =
      (match parseFeedGo d m args xs acc st with
       | (st2, .ok acc2) => parseFeedGo d m args ys acc2 st2
       | (st2, .error e) => (st2, .error e))
  | [], ys, acc, st => rfl
  | x :: xs, ys, acc, st => by
    simp only [List.cons_append, parseFeedGo]
    by_cases hemp :
        (acc ++ acceptEntries m (readUpdated st x) args x (d x)).isEmpty = true
    · rw [if_pos hemp, if_pos hemp]
      exact parseFeedGo_append d m args xs ys _ st
    · rw [if_neg hemp, if_neg hemp]
      cases hps : pySorted (acc ++ acceptEntries m (readUpdated st x) args x (d x)) with
      | error e => rfl
      | ok s => exact parseFeedGo_append d m args xs ys s _

theorem parseFeedGo_agree (d : String → List Entry) (m : Int) (args : FeedCfg)
    (K : String) :
    ∀ (fns : List String) (acc : List Cand) (st1 st2 : Store),
    (∀ g ∈ fns, g ++ ".updated" ≠ K) →
    (∀ k, k ≠ K → st1 k = st2 k) →
    (parseFeedGo d m args fns acc st1).2 = (parseFeedGo d m args fns acc st2).2 ∧
    (∀ k, k ≠ K → (parseFeedGo d m args fns acc st1).1 k
        = (parseFeedGo d m args fns acc st2).1 k)
  | [], acc, st1, st2, _, hag => ⟨rfl, fun k hk => hag k hk⟩
  | g :: fns, acc, st1, st2, hkeys, hag => by
    have hg : g ++ ".updated" ≠ K := hkeys g (List.mem_cons_self g fns)
    have hread : readUpdated st1 g = readUpdated st2 g := by
      unfold readUpdated
      rw [hag _ hg]
    simp only [parseFeedGo, hread]
    by_cases hemp :
        (acc ++ acceptEntries m (readUpdated st2 g) args g (d g)).isEmpty = true
    · rw [if_pos hemp, if_pos hemp]
      exact parseFeedGo_agree d m args K fns _ st1 st2
        (fun x hx => hkeys x (List.mem_cons_of_mem g hx)) hag
    · rw [if_neg hemp, if_neg hemp]
      cases hps : pySorted (acc ++ acceptEntries m (readUpdated st2 g) args g (d g)) with
      | error e => exact ⟨rfl, fun k hk => hag k hk⟩
      | ok s =>
        refine parseFeedGo_agree d m args K fns s
          (storeWrite st1 (g ++ ".updated") s.getLast!.1)
          (storeWrite st2 (g ++ ".updated") s.getLast!.1)
          (fun x hx => hkeys x (List.mem_cons_of_mem g hx)) ?_
        intro k hk
        unfold storeWrite
        by_cases hkk : k = g ++ ".updated"
        · rw [if_pos hkk, if_pos hkk]
        · rw [if_neg hkk, if_neg hkk]
          exact hag k hk

theorem feedsParseGo_agree (d : String → List Entry) (m : Int) (K : String) :
    ∀ (fs : List FeedCfg) (acc : List Cand) (st1 st2 : Store),
    (∀ B ∈ fs, ∀ g ∈ B.filenames, g ++ ".updated" ≠ K) →
    (∀ k, k ≠ K → st1 k = st2 k) →
    (feedsParseGo d m fs acc st1).2 = (feedsParseGo d m fs acc st2).2 ∧
    (∀ k, k ≠ K → (feedsParseGo d m fs acc st1).1 k
        = (feedsParseGo d m fs acc st2).1 k)
  | [], acc, st1, st2, _, hag => ⟨rfl, fun k hk => hag k hk⟩
  | B :: fs, acc, st1, st2, hkeys, hag => by
    have hB : (parseFeed d m B st1).2 = (parseFeed d m B st2).2 ∧
        (∀ k, k ≠ K → (parseFeed d m B st1).1 k = (parseFeed d m B st2).1 k) :=
      parseFeedGo_agree d m B K B.filenames [] st1 st2
        (hkeys B (List.mem_cons_self B fs)) hag
    simp only [feedsParseGo]
    cases h1 : parseFeed d m B st1 with
    | mk stA r1 =>
      cases h2 : parseFeed d m B st2 with
      | mk stB r2 =>
        rw [h1, h2] at hB
        have hr : r1 = r2 := hB.1
        have hagAB : ∀ k, k ≠ K → stA k = stB k := hB.2
        subst hr
        cases r1 with
        | error e => exact ⟨rfl, fun k hk => hagAB k hk⟩
        | ok es =>
          exact feedsParseGo_agree d m K fs (acc ++ es) stA stB
            (fun C hC => hkeys C (List.mem_cons_of_mem B hC)) hagAB

theorem parseFeedGo_inv (d : String → List Entry) (m : Int) (args : FeedCfg) :
    ∀ (fns : List String) (acc : List Cand) (st st2 : Store) (acc2 : List Cand),
    acc.Pairwise (fun x y => strLe x.1 y.1 = true) → hasBadTie acc = false →
    parseFeedGo d m args fns acc st = (st2, .ok acc2) →
    acc2.Pairwise (fun x y => strLe x.1 y.1 = true) ∧ hasBadTie acc2 = false
  | [], acc, st, st2, acc2, hs, ht, h => by
    have h2 := congrArg Prod.snd h
    simp only [Prod.snd] at h2
    cases h2
    exact ⟨hs, ht⟩
  | g :: fns, acc, st, st2, acc2, hs, ht, h => by
    simp only [parseFeedGo] at h
    by_cases hemp :
        (acc ++ acceptEntries m (readUpdated st g) args g (d g)).isEmpty = true
    · rw [if_pos hemp] at h
      have hnil : acc ++ acceptEntries m (readUpdated st g) args g (d g) = [] :=
        List.isEmpty_iff.mp hemp
      rw [hnil] at h
      exact parseFeedGo_inv d m args fns [] st st2 acc2 List.Pairwise.nil rfl h
    · rw [if_neg hemp] at h
      cases hps : pySorted (acc ++ acceptEntries m (readUpdated st g) args g (d g)) with
      | error e =>
        rw [hps] at h
        have h2 := congrArg Prod.snd h
        simp only [Prod.snd] at h2
        cases h2
      | ok s =>
        rw [hps] at h
        have hsort : s = pySort (acc ++ acceptEntries m (readUpdated st g) args g (d g))
            ∧ hasBadTie (acc ++ acceptEntries m (readUpdated st g) args g (d g))
              = false := by
          unfold pySorted at hps
          by_cases htie :
              hasBadTie (acc ++ acceptEntries m (readUpdated st g) args g (d g)) = true
          · rw [if_pos htie] at hps
            cases hps
          · rw [if_neg htie] at hps
            injection hps with hps2
            exact ⟨hps2.symm, Bool.not_eq_true _ ▸ htie⟩
        refine parseFeedGo_inv d m args fns s _ st2 acc2 ?_ ?_ h
        · rw [hsort.1]
          exact pySort_sorted _
        · rw [hsort.1]
          exact hasBadTie_eq_false_of_perm (pySort_perm _).symm hsort.2

theorem parseFeedGo_skip_empty (d : String → List Entry) (m : Int) (args : FeedCfg)
    (floc : String) (post : List String) (acc : List Cand) (st : Store)
    (hfail : d floc = []) (hpost : floc ∉ post)
    (hs : acc.Pairwise (fun x y => strLe x.1 y.1 = true))
    (ht : hasBadTie acc = false) :
    (parseFeedGo d m args (floc :: post) acc st).2
      = (parseFeedGo d m args post acc st).2 ∧
    (∀ k, k ≠ floc ++ ".updated" →
      (parseFeedGo d m args (floc :: post) acc st).1 k
        = (parseFeedGo d m args post acc st).1 k) := by
  have hE : acc ++ acceptEntries m (readUpdated st floc) args floc (d floc) = acc := by
    rw [hfail]
    simp [acceptEntries]
  cases acc with
  | nil =>
    simp only [parseFeedGo, hE, List.isEmpty_nil, if_pos]
    exact ⟨trivial, fun k hk => trivial⟩
  | cons c cs =>
    simp only [parseFeedGo, hE]
    have hemp : ((c :: cs).isEmpty = true) = False := by
      simp
    rw [if_neg (by simp)]
    have hps : pySorted (c :: cs) = .ok (c :: cs) := by
      unfold pySorted
      rw [if_neg (by rw [ht]; intro hcon; cases hcon)]
      rw [pySort_of_sorted _ hs]
    rw [hps]
    exact parseFeedGo_agree d m args (floc ++ ".updated") post (c :: cs)
      (storeWrite st (floc ++ ".updated") (c :: cs).getLast!.1) st
      (fun g hg => append_updated_ne (fun hgf => hpost (hgf ▸ hg)))
      (fun k hk => by
        unfold storeWrite
        rw [if_neg hk])

/-- C5: decode failure containment, general form.  If location `floc` of
feed A (sitting at any position `pre ++ floc :: post` of A's location list)
fails to decode (the decoder yields no entries), then: (i) A's parse returns
the same outcome — the same accepted candidates from all its other
locations, or the same error — as the parse of A's other locations alone,
and its store differs at most at `floc`'s own watermark sidecar; (ii) the
whole parse loop over A and any further feeds produces the same outcome as
the counterfactual in which `floc` is absent: every other location, of the
same feed and of later feeds, still parses and still produces its accepted
entries.  (`acc` and `st` are arbitrary, covering any feeds already
processed before A; the hypotheses say only that the failing location is not
also a location of the remaining work, i.e. it is one single storage
location.) -/
theorem c5_decode_failure_contained (d : String → List Entry) (m : Int)
    (A : FeedCfg) (F2 : List FeedCfg) (pre post : List String) (floc : String)
    (acc : List Cand) (st : Store)
    (hA : A.filenames = pre ++ floc :: post)
    (hfail : d floc = [])
    (hpost : floc ∉ post)
    (hF2 : ∀ B ∈ F2, floc ∉ B.filenames) :
    ((parseFeed d m A st).2 = (parseFeedGo d m A (pre ++ post) [] st).2 ∧
     ∀ k, k ≠ floc ++ ".updated" →
       (parseFeed d m A st).1 k = (parseFeedGo d m A (pre ++ post) [] st).1 k) ∧
    (feedsParseGo d m (A :: F2) acc st).2
      = (match parseFeedGo d m A (pre ++ post) [] st with
         | (_, .error e) => .error e
         | (stA, .ok esA) => (feedsParseGo d m F2 (acc ++ esA) stA).2) := by
  have hpf : parseFeed d m A st = parseFeedGo d m A (pre ++ floc :: post) [] st := by
    unfold parseFeed
    rw [hA]
  have hpart1 : (parseFeedGo d m A (pre ++ floc :: post) [] st).2
      = (parseFeedGo d m A (pre ++ post) [] st).2 ∧
      ∀ k, k ≠ floc ++ ".updated" →
        (parseFeedGo d m A (pre ++ floc :: post) [] st).1 k
          = (parseFeedGo d m A (pre ++ post) [] st).1 k := by
    rw [parseFeedGo_append d m A pre (floc :: post) [] st,
      parseFeedGo_append d m A pre post [] st]
    cases hpre : parseFeedGo d m A pre [] st with
    | mk stP r =>
      cases r with
      | error e => exact ⟨rfl, fun k hk => rfl⟩
      | ok accP =>
        have hinv := parseFeedGo_inv d m A pre [] st stP accP
          List.Pairwise.nil rfl hpre
        exact parseFeedGo_skip_empty d m A floc post accP stP hfail hpost
          hinv.1 hinv.2
  refine ⟨⟨by rw [hpf]; exact hpart1.1, fun k hk => by rw [hpf]; exact hpart1.2 k hk⟩, ?_⟩
  simp only [feedsParseGo]
  cases h1 : parseFeed d m A st with
  | mk stA1 r1 =>
    cases h2 : parseFeedGo d m A (pre ++ post) [] st with
    | mk stA2 r2 =>
      have hr : r1 = r2 := by
        have h3 := hpart1.1
        rw [hpf] at h1
        rw [h1, h2] at h3
        exact h3
      have hagP : ∀ k, k ≠ floc ++ ".updated" → stA1 k = stA2 k := by
        intro k hk
        have h3 := hpart1.2 k hk
        rw [hpf] at h1
        rw [h1, h2] at h3
        exact h3
      subst hr
      cases r1 with
      | error e => rfl
      | ok esA =>
        exact (feedsParseGo_agree d m (floc ++ ".updated") F2 (acc ++ esA)
          stA1 stA2
          (fun B hB g hg => append_updated_ne (fun hgf => hF2 B hB (hgf ▸ hg)))
          hagP).1

theorem c5_decode_failure_contained_witness :
    (parseFeed decM 0 srcM (fun _ => none)).2
      = (parseFeedGo decM 0 srcM (["g1"] ++ ["g2"]) [] (fun _ => none)).2 ∧
    (parseFeed decM 0 srcM (fun _ => none)).1 "g2.updated"
      = (parseFeedGo decM 0 srcM (["g1"] ++ ["g2"]) [] (fun _ => none)).1
          "g2.updated" ∧
    (feedsParseGo decM 0 (srcM :: [srcB]) [] (fun _ => none)).2
      = (match parseFeedGo decM 0 srcM (["g1"] ++ ["g2"]) [] (fun _ => none) with
         | (_, .error e) => .error e
         | (stA, .ok esA) => (feedsParseGo decM 0 [srcB] ([] ++ esA) stA).2) :=
  ⟨(c5_decode_failure_contained decM 0 srcM [srcB] ["g1"] ["g2"] "gf" []
      (fun _ => none) rfl rfl (by decide) (by decide)).1.1,
   (c5_decode_failure_contained decM 0 srcM [srcB] ["g1"] ["g2"] "gf" []
      (fun _ => none) rfl rfl (by decide) (by decide)).1.2 "g2.updated" (by decide),
   (c5_decode_failure_contained decM 0 srcM [srcB] ["g1"] ["g2"] "gf" []
      (fun _ => none) rfl rfl (by decide) (by decide)).2⟩
